import Mathlib

/-!
Verification of the Sentiment-Analyser repository's core pipeline.

Texts are modelled as `List Char` (one element per Unicode scalar value).
Python float arithmetic is modelled exactly: token-level accumulation over `ℚ`,
and the final score over `ℝ` (the `n > 3` branch divides by a square root).
Case folding is modelled on the ASCII letters, which covers every word of the
static lexicons and every input the claims mention.
-/

namespace SentimentAnalyser

/-- Whitespace class of the regex `\s` on the characters relevant here:
space, tab, newline, carriage return, vertical tab, form feed. -/
def isSpace (c : Char) : Bool :=
  c == ' ' || c == '\t' || c == '\n' || c == '\r' || c == Char.ofNat 11 || c == Char.ofNat 12

/-- One pass of `re.sub(r"\s+", " ", ·)`: every maximal run of whitespace
becomes a single space.  The boolean argument records whether the previous
character was whitespace (i.e. whether we are inside a run). -/
def collapseWsAux : Bool → List Char → List Char
  | _, [] => []
  | prevSpace, c :: cs =>
    if isSpace c then
      if prevSpace then collapseWsAux true cs
      else ' ' :: collapseWsAux true cs
    else c :: collapseWsAux false cs

/-- Model of `re.sub(r"\s+", " ", l)` from `normalize` in `src/core.py`. -/
def collapseWs (l : List Char) : List Char := collapseWsAux false l

/-- Python `str.strip()`: remove whitespace from both ends. -/
def stripWs (l : List Char) : List Char :=
  (l.dropWhile isSpace).rdropWhile isSpace

/-- The function `normalize` from `src/core.py`: lowercase, collapse whitespace runs to a
single space, strip the ends. -/
def normalize (text : List Char) : List Char :=
  stripWs (collapseWs (text.map Char.toLower))

/-- Python `str.split()` (no separator): split on whitespace runs, dropping
empty fragments.  The accumulator holds the current word reversed. -/
def splitWsAux : List Char → List Char → List (List Char)
  | acc, [] => if acc = [] then [] else [acc.reverse]
  | acc, c :: cs =>
    if isSpace c then
      if acc = [] then splitWsAux [] cs else acc.reverse :: splitWsAux [] cs
    else splitWsAux (c :: acc) cs

/-- Python `str.split()` with no arguments. -/
def splitWs (l : List Char) : List (List Char) := splitWsAux [] l

/-- The function `tokenize` from `src/core.py`: normalize, split on whitespace, keep the
non-empty fragments. -/
def tokenize (text : List Char) : List (List Char) :=
  (splitWs (normalize text)).filter (fun t => !t.isEmpty)

/-- The function `clamp_unit` from `src/core.py`: `max(-1.0, min(1.0, x))`. -/
noncomputable def clamp_unit (x : ℝ) : ℝ :=
  max (-1) (min 1 x)

/-- The function `label_from_score` from `src/core.py`.  The defaults at its call sites are
`pos_threshold = 0.10`, `neg_threshold = -0.10`. -/
noncomputable def label_from_score (score pos_threshold neg_threshold : ℝ) : String :=
  if score ≥ pos_threshold then "positive"
  else if score ≤ neg_threshold then "negative"
  else "neutral"

/-- Positive-word lexicon from `src/fallback.py` (a Python set literal). -/
def POS_WORDS : List (List Char) :=
  ["love", "great", "amazing", "excellent", "fantastic",
   "wonderful", "awesome", "happy", "best", "enjoyed",
   "recommend", "perfect", "brilliant", "outstanding",
   "good", "nice", "fine", "super", "beautiful"].map String.toList

/-- Negative-word lexicon from `src/fallback.py` (the source set literal
repeats "worst"; membership is unaffected). -/
def NEG_WORDS : List (List Char) :=
  ["hate", "terrible", "awful", "horrible", "worst",
   "bad", "disappointed", "garbage", "waste", "broken",
   "frustrated", "upset", "never", "poor", "useless",
   "worst", "disgusting", "pathetic"].map String.toList

/-- Negator set from `src/fallback.py`. -/
def NEGATORS : List (List Char) :=
  ["not", "no", "never", "don't", "doesn't", "didn't",
   "won't", "can't", "cannot", "neither", "nor"].map String.toList

/-- Booster set from `src/fallback.py`. -/
def BOOSTERS : List (List Char) :=
  ["very", "extremely", "absolutely", "really", "so",
   "highly", "completely", "totally", "utterly"].map String.toList

/-- Dampener set from `src/fallback.py` (the last two entries contain an
interior space and can therefore never match a token). -/
def DAMPENERS : List (List Char) :=
  ["somewhat", "slightly", "barely", "hardly", "maybe",
   "perhaps", "kind of", "sort of"].map String.toList

/-- Positive emoji glyph set from `src/fallback.py`.  The heart glyph is the
two-scalar sequence U+2764 U+FE0F, exactly as in the source literal. -/
def EMOJI_POS : List (List Char) :=
  [['😊'], ['😀'], ['😃'], ['❤', Char.ofNat 0xFE0F], ['👍'], ['🎉'], ['✨']]

/-- Negative emoji glyph set from `src/fallback.py`. -/
def EMOJI_NEG : List (List Char) :=
  [['😡'], ['😢'], ['😞'], ['👎'], ['💔'], ['😠']]

/-- Characters removed from token ends before lexicon lookup:
`token.strip(".,!?;:\"'")` in `src/fallback.py`. -/
def STRIP_CHARS : List Char :=
  ['.', ',', '!', '?', ';', ':', '"', Char.ofNat 39]

/-- Python `token.strip(".,!?;:\"'")`: remove those characters from both ends
of the token (never the interior). -/
def stripTok (t : List Char) : List Char :=
  (t.dropWhile (STRIP_CHARS.contains ·)).rdropWhile (STRIP_CHARS.contains ·)

/-- Mutable locals of the scoring loop of `analyze_fallback_score`. -/
structure ScanState where
  score : ℚ
  negation_active : Bool
  booster_active : Bool
  dampener_active : Bool
deriving DecidableEq

/-- One iteration of the token loop of `analyze_fallback_score` in
`src/fallback.py`: modifier words set their flag and contribute nothing;
any other word is scored and consumes all active flags. -/
def stepTok (s : ScanState) (token : List Char) : ScanState :=
  let word := stripTok token
  if word ∈ NEGATORS then { s with negation_active := true }
  else if word ∈ BOOSTERS then { s with booster_active := true }
  else if word ∈ DAMPENERS then { s with dampener_active := true }
  else
    let word_score : ℚ :=
      if word ∈ POS_WORDS then 0.7 else if word ∈ NEG_WORDS then -0.7 else 0
    let word_score := if s.negation_active then word_score * (-1) else word_score
    let word_score := if s.booster_active then word_score * 1.8 else word_score
    let word_score := if s.dampener_active then word_score * 0.5 else word_score
    { score := s.score + word_score, negation_active := false,
      booster_active := false, dampener_active := false }

/-- The full token loop, started from score `0` with all flags clear. -/
def scanTokens (tokens : List (List Char)) : ScanState :=
  tokens.foldl stepTok ⟨0, false, false, false⟩

/-- Exclamation emphasis from `src/fallback.py`: `0.1` per `"!"` character of
the normalized text (the `> 0` guard mirrors the source). -/
def exclamationBonus (normalized : List Char) : ℚ :=
  let exclamation_count := normalized.count '!'
  if exclamation_count > 0 then 0.1 * exclamation_count else 0

/-- Python's substring operator `e in t`: does `e` occur contiguously in `t`? -/
def occursIn : List Char → List Char → Bool
  | e, [] => e.isEmpty
  | e, t@(_ :: cs) => e.isPrefixOf t || occursIn e cs

/-- The positive-emoji loop of `src/fallback.py`: `+0.3` for each glyph of
`EMOJI_POS` occurring in the raw input text. -/
def addPosEmojis (text : List Char) (score : ℚ) : ℚ :=
  EMOJI_POS.foldl (fun acc e => if occursIn e text then acc + 0.3 else acc) score

/-- The negative-emoji loop of `src/fallback.py`: `-0.3` for each glyph of
`EMOJI_NEG` occurring in the raw input text. -/
def subNegEmojis (text : List Char) (score : ℚ) : ℚ :=
  EMOJI_NEG.foldl (fun acc e => if occursIn e text then acc - 0.3 else acc) score

/-- The function `analyze_fallback_score` from `src/fallback.py`: token pass, exclamation
emphasis, emoji adjustment, length normalization, clamp. -/
noncomputable def analyze_fallback_score (text : List Char) : ℝ :=
  let normalized := normalize text
  let tokens := tokenize normalized
  let total : ℚ :=
    subNegEmojis text (addPosEmojis text ((scanTokens tokens).score + exclamationBonus normalized))
  let final : ℝ :=
    if 0 < tokens.length then
      if tokens.length ≤ 3 then (total : ℝ) / max 1 ((tokens.length : ℝ) * 0.6)
      else (total : ℝ) / Real.sqrt (tokens.length : ℝ)
    else (total : ℝ)
  clamp_unit final

/-- The function `analyze_fallback` from `src/fallback.py`. -/
noncomputable def analyze_fallback (text : List Char) : String :=
  label_from_score (analyze_fallback_score text) 0.1 (-0.1)

/-- Pre-normalization accumulated total of `analyze_fallback_score`: lexical
contributions plus exclamation emphasis plus emoji adjustments, before the
length divisor and the clamp. -/
def preNormTotal (text : List Char) : ℚ :=
  subNegEmojis text
    (addPosEmojis text ((scanTokens (tokenize (normalize text))).score +
      exclamationBonus (normalize text)))

/-- The strategy module caches the outcome of one model-load attempt.  A raised
exception during loading is modelled by the `raised` constructor. -/
inductive LoadOutcome (Model : Type) where
  | ok (m : Model)
  | raised
deriving DecidableEq

/-- The function `_load_model_once` from `src/strategy.py`: `none` when the artifact file is
absent or loading raises; otherwise the loaded model. -/
def load_model_once {Model : Type} (path_exists : Bool) (load_result : LoadOutcome Model) :
    Option Model :=
  if path_exists = false then none
  else
    match load_result with
    | .ok m => some m
    | .raised => none

/-- The function `analyze_strategy` from `src/strategy.py`: ML label if a model was loaded,
else the lexicon fallback label. -/
noncomputable def analyze_strategy {Model : Type} (analyze_ml : Model → List Char → String)
    (path_exists : Bool) (load_result : LoadOutcome Model) (text : List Char) : String :=
  match load_model_once path_exists load_result with
  | some m => analyze_ml m text
  | none => analyze_fallback text

/-- The function `analyze_strategy_score` from `src/strategy.py`: ML score if a model was
loaded, else the lexicon fallback score. -/
noncomputable def analyze_strategy_score {Model : Type} (analyze_ml_score : Model → List Char → ℝ)
    (path_exists : Bool) (load_result : LoadOutcome Model) (text : List Char) : ℝ :=
  match load_model_once path_exists load_result with
  | some m => analyze_ml_score m text
  | none => analyze_fallback_score text

/-! Helper lemmas about the scoring pass. -/

/-- Base lexicon contribution of a stripped word, as computed inside the loop. -/
def baseScore (word : List Char) : ℚ :=
  if word ∈ POS_WORDS then 0.7 else if word ∈ NEG_WORDS then -0.7 else 0

theorem stepTok_negator {s : ScanState} {tok : List Char} (h : stripTok tok ∈ NEGATORS) :
    stepTok s tok = { s with negation_active := true } := by
  simp [stepTok, h]

theorem stepTok_booster {s : ScanState} {tok : List Char} (h0 : stripTok tok ∉ NEGATORS)
    (h : stripTok tok ∈ BOOSTERS) :
    stepTok s tok = { s with booster_active := true } := by
  simp [stepTok, h0, h]

theorem stepTok_dampener {s : ScanState} {tok : List Char} (h0 : stripTok tok ∉ NEGATORS)
    (h1 : stripTok tok ∉ BOOSTERS) (h : stripTok tok ∈ DAMPENERS) :
    stepTok s tok = { s with dampener_active := true } := by
  simp [stepTok, h0, h1, h]

theorem stepTok_scoreable {s : ScanState} {tok : List Char} (h0 : stripTok tok ∉ NEGATORS)
    (h1 : stripTok tok ∉ BOOSTERS) (h2 : stripTok tok ∉ DAMPENERS) :
    stepTok s tok =
      { score := s.score +
          baseScore (stripTok tok) * (if s.negation_active then -1 else 1) *
            (if s.booster_active then 1.8 else 1) * (if s.dampener_active then 0.5 else 1),
        negation_active := false, booster_active := false, dampener_active := false } := by
  simp only [stepTok, baseScore, if_neg h0, if_neg h1, if_neg h2]
  cases hn : s.negation_active <;> cases hb : s.booster_active <;>
    cases hd : s.dampener_active <;> simp

theorem foldl_emoji_add (text : List Char) (L : List (List Char)) (s : ℚ) :
    L.foldl (fun acc e => if occursIn e text then acc + 0.3 else acc) s =
      s + 0.3 * (L.countP (fun e => occursIn e text)) := by
  induction L generalizing s with
  | nil => simp
  | cons e L ih =>
    by_cases h : occursIn e text = true <;>
      simp [List.foldl_cons, List.countP_cons, h, ih] <;> ring

theorem foldl_emoji_sub (text : List Char) (L : List (List Char)) (s : ℚ) :
    L.foldl (fun acc e => if occursIn e text then acc - 0.3 else acc) s =
      s - 0.3 * (L.countP (fun e => occursIn e text)) := by
  induction L generalizing s with
  | nil => simp
  | cons e L ih =>
    by_cases h : occursIn e text = true <;>
      simp [List.foldl_cons, List.countP_cons, h, ih] <;> ring

/-- Number of distinct positive-emoji glyphs occurring in the raw text. -/
def posEmojiCount (text : List Char) : ℕ :=
  EMOJI_POS.countP (fun e => occursIn e text)

/-- Number of distinct negative-emoji glyphs occurring in the raw text. -/
def negEmojiCount (text : List Char) : ℕ :=
  EMOJI_NEG.countP (fun e => occursIn e text)

theorem addPosEmojis_eq (text : List Char) (s : ℚ) :
    addPosEmojis text s = s + 0.3 * posEmojiCount text :=
  foldl_emoji_add text EMOJI_POS s

theorem subNegEmojis_eq (text : List Char) (s : ℚ) :
    subNegEmojis text s = s - 0.3 * negEmojiCount text :=
  foldl_emoji_sub text EMOJI_NEG s

theorem exclamationBonus_eq (normalized : List Char) :
    exclamationBonus normalized = 0.1 * normalized.count '!' := by
  unfold exclamationBonus
  by_cases h : 0 < normalized.count '!'
  · simp [h]
  · have h0 : normalized.count '!' = 0 := by omega
    simp [h0]

theorem preNormTotal_eq (text : List Char) :
    preNormTotal text =
      (scanTokens (tokenize (normalize text))).score +
        0.1 * (normalize text).count '!' + 0.3 * posEmojiCount text -
        0.3 * negEmojiCount text := by
  unfold preNormTotal
  rw [subNegEmojis_eq, addPosEmojis_eq, exclamationBonus_eq]

theorem analyze_fallback_score_cases (text : List Char) :
    analyze_fallback_score text =
      clamp_unit
        (if 0 < (tokenize (normalize text)).length then
          if (tokenize (normalize text)).length ≤ 3 then
            (preNormTotal text : ℝ) / max 1 (((tokenize (normalize text)).length : ℝ) * 0.6)
          else (preNormTotal text : ℝ) / Real.sqrt ((tokenize (normalize text)).length : ℝ)
        else (preNormTotal text : ℝ)) := by
  simp only [analyze_fallback_score, preNormTotal]

/-! Character-level facts about ASCII case folding and the whitespace class. -/

theorem char_toNat_ofNat {n : ℕ} (h : n < 0xd800) : (Char.ofNat n).toNat = n := by
  have hv : n.isValidChar := Or.inl h
  rw [Char.ofNat, dif_pos hv]
  rfl

theorem char_eq_iff_toNat {c d : Char} : c = d ↔ c.toNat = d.toNat := by
  constructor
  · intro h; rw [h]
  · intro h
    have h1 : Char.ofNat c.toNat = Char.ofNat d.toNat := by rw [h]
    rwa [Char.ofNat_toNat, Char.ofNat_toNat] at h1

theorem toLower_toNat_upper {c : Char} (h : 65 ≤ c.toNat ∧ c.toNat ≤ 90) :
    c.toLower.toNat = c.toNat + 32 := by
  unfold Char.toLower
  rw [if_pos h]
  exact char_toNat_ofNat (by omega)

theorem toLower_eq_self {c : Char} (h : ¬(65 ≤ c.toNat ∧ c.toNat ≤ 90)) :
    c.toLower = c := by
  unfold Char.toLower
  exact if_neg h

theorem toLower_idem (c : Char) : c.toLower.toLower = c.toLower := by
  by_cases h : 65 ≤ c.toNat ∧ c.toNat ≤ 90
  · have ht := toLower_toNat_upper h
    exact toLower_eq_self (by omega)
  · rw [toLower_eq_self h, toLower_eq_self h]

theorem isSpace_iff_toNat {c : Char} :
    isSpace c = true ↔
      c.toNat = 32 ∨ c.toNat = 9 ∨ c.toNat = 10 ∨ c.toNat = 13 ∨ c.toNat = 11 ∨ c.toNat = 12 := by
  have h32 : (' ' : Char).toNat = 32 := rfl
  have h9 : ('\t' : Char).toNat = 9 := rfl
  have h10 : ('\n' : Char).toNat = 10 := rfl
  have h13 : ('\r' : Char).toNat = 13 := rfl
  have h11 : (Char.ofNat 11).toNat = 11 := rfl
  have h12 : (Char.ofNat 12).toNat = 12 := rfl
  simp only [isSpace, Bool.or_eq_true, beq_iff_eq]
  rw [@char_eq_iff_toNat c ' ', @char_eq_iff_toNat c '\t', @char_eq_iff_toNat c '\n',
    @char_eq_iff_toNat c '\r', @char_eq_iff_toNat c (Char.ofNat 11),
    @char_eq_iff_toNat c (Char.ofNat 12), h32, h9, h10, h13, h11, h12]
  omega

theorem isSpace_toLower (c : Char) : isSpace c.toLower = isSpace c := by
  by_cases h : 65 ≤ c.toNat ∧ c.toNat ≤ 90
  · have ht := toLower_toNat_upper h
    have hl : isSpace c.toLower = false := by
      rw [← Bool.not_eq_true, isSpace_iff_toNat]
      omega
    have hc : isSpace c = false := by
      rw [← Bool.not_eq_true, isSpace_iff_toNat]
      omega
    rw [hl, hc]
  · rw [toLower_eq_self h]

theorem toLower_space : (' ' : Char).toLower = ' ' := rfl

/-! Canonical whitespace form: no two adjacent whitespace characters, every
whitespace character a plain space.  `normalize` always produces this form,
and is the identity on stripped lists of this form — which yields idempotence. -/

/-- The list does not begin with a whitespace character. -/
def noLeadSpaceB : List Char → Bool
  | [] => true
  | c :: _ => !isSpace c

/-- The list does not end with a whitespace character. -/
def noTrailSpaceB (l : List Char) : Bool := noLeadSpaceB l.reverse

/-- No two adjacent characters of the list are both whitespace. -/
def wsChain (l : List Char) : Prop :=
  List.Chain' (fun a b => ¬(isSpace a = true ∧ isSpace b = true)) l

/-- Every whitespace character of the list is the plain space. -/
def wsOnlySpace (l : List Char) : Prop :=
  ∀ c ∈ l, isSpace c = true → c = ' '

theorem collapseWsAux_canonical (l : List Char) :
    ∀ b : Bool,
      wsChain (collapseWsAux b l) ∧ wsOnlySpace (collapseWsAux b l) ∧
        (b = true → noLeadSpaceB (collapseWsAux b l) = true) := by
  induction l with
  | nil =>
    intro b
    refine ⟨List.chain'_nil, fun c hc => absurd hc (List.not_mem_nil c), fun _ => rfl⟩
  | cons c cs ih =>
    intro b
    by_cases hc : isSpace c = true
    · cases b with
      | true =>
        simpa only [collapseWsAux, hc, if_true] using ih true
      | false =>
        obtain ⟨ih1, ih2, ih3⟩ := ih true
        have ih3' := ih3 rfl
        simp only [collapseWsAux, hc, if_true]
        refine ⟨?_, ?_, fun h => absurd h (by simp)⟩
        · cases hr : collapseWsAux true cs with
          | nil => simp [wsChain]
          | cons d ds =>
            rw [hr] at ih1 ih3'
            have hd : isSpace d = false := by
              simpa [noLeadSpaceB] using ih3'
            exact List.chain'_cons.mpr ⟨by simp [hd], ih1⟩
        · intro x hx hsx
          rcases List.mem_cons.mp hx with h | h
          · exact h
          · exact ih2 x h hsx
    · have step : collapseWsAux b (c :: cs) = c :: collapseWsAux false cs := by
        simp [collapseWsAux, hc]
      obtain ⟨ih1, ih2, _⟩ := ih false
      rw [step]
      refine ⟨?_, ?_, ?_⟩
      · cases hr : collapseWsAux false cs with
        | nil => simp [wsChain]
        | cons d ds =>
          rw [hr] at ih1
          exact List.chain'_cons.mpr ⟨by simp [hc], ih1⟩
      · intro x hx hsx
        rcases List.mem_cons.mp hx with h | h
        · exact absurd (h ▸ hsx) (by simp [hc])
        · exact ih2 x h hsx
      · intro _
        simp [noLeadSpaceB, hc]

theorem collapseWs_wsChain (l : List Char) : wsChain (collapseWs l) :=
  (collapseWsAux_canonical l false).1

theorem collapseWs_wsOnlySpace (l : List Char) : wsOnlySpace (collapseWs l) :=
  (collapseWsAux_canonical l false).2.1

theorem wsChain_reverse {l : List Char} (h : wsChain l) : wsChain l.reverse := by
  rw [wsChain, List.chain'_reverse]
  exact h.imp fun hab => by tauto

theorem wsChain_dropWhile {l : List Char} (h : wsChain l) : wsChain (l.dropWhile isSpace) :=
  List.Chain'.suffix h (List.dropWhile_suffix _)

theorem wsChain_rdropWhile {l : List Char} (h : wsChain l) : wsChain (l.rdropWhile isSpace) := by
  rw [List.rdropWhile]
  exact wsChain_reverse (wsChain_dropWhile (wsChain_reverse h))

theorem wsOnlySpace_dropWhile {l : List Char} (h : wsOnlySpace l) :
    wsOnlySpace (l.dropWhile isSpace) :=
  fun c hc => h c (List.dropWhile_subset _ hc)

theorem wsOnlySpace_rdropWhile {l : List Char} (h : wsOnlySpace l) :
    wsOnlySpace (l.rdropWhile isSpace) := by
  intro c hc
  rw [List.rdropWhile, List.mem_reverse] at hc
  exact h c (List.mem_reverse.mp (List.dropWhile_subset _ hc))

theorem noLeadSpaceB_dropWhile (l : List Char) :
    noLeadSpaceB (l.dropWhile isSpace) = true := by
  cases hd : l.dropWhile isSpace with
  | nil => rfl
  | cons c cs =>
    have := List.head?_dropWhile_not isSpace l
    rw [hd] at this
    simp only [List.head?_cons] at this
    simp [noLeadSpaceB, this]

theorem noLeadSpaceB_rdropWhile {l : List Char} (h : noLeadSpaceB l = true) :
    noLeadSpaceB (l.rdropWhile isSpace) = true := by
  obtain ⟨t, ht⟩ := List.rdropWhile_prefix isSpace l
  cases hr : l.rdropWhile isSpace with
  | nil => rfl
  | cons c cs =>
    rw [hr] at ht
    rw [← ht] at h
    simpa [noLeadSpaceB] using h

theorem noTrailSpaceB_rdropWhile (l : List Char) :
    noTrailSpaceB (l.rdropWhile isSpace) = true := by
  unfold noTrailSpaceB List.rdropWhile
  rw [List.reverse_reverse]
  exact noLeadSpaceB_dropWhile _

theorem dropWhile_eq_self_of_noLead {l : List Char} (h : noLeadSpaceB l = true) :
    l.dropWhile isSpace = l := by
  cases l with
  | nil => rfl
  | cons c cs =>
    have hc : isSpace c = false := by simpa [noLeadSpaceB] using h
    simp [List.dropWhile_cons, hc]

theorem rdropWhile_eq_self_of_noTrail {l : List Char} (h : noTrailSpaceB l = true) :
    l.rdropWhile isSpace = l := by
  unfold noTrailSpaceB at h
  unfold List.rdropWhile
  rw [dropWhile_eq_self_of_noLead h, List.reverse_reverse]

theorem stripWs_eq_self {l : List Char} (h1 : noLeadSpaceB l = true)
    (h2 : noTrailSpaceB l = true) : stripWs l = l := by
  unfold stripWs
  rw [dropWhile_eq_self_of_noLead h1, rdropWhile_eq_self_of_noTrail h2]

theorem collapseWsAux_eq_self (l : List Char) :
    wsChain l → wsOnlySpace l →
      collapseWsAux false l = l ∧ (noLeadSpaceB l = true → collapseWsAux true l = l) := by
  induction l with
  | nil => exact fun _ _ => ⟨rfl, fun _ => rfl⟩
  | cons c cs ih =>
    intro hch hos
    have hch' : wsChain cs := hch.tail
    have hos' : wsOnlySpace cs := fun d hd => hos d (List.mem_cons_of_mem _ hd)
    obtain ⟨ihf, iht⟩ := ih hch' hos'
    by_cases hc : isSpace c = true
    · have hcsp : c = ' ' := hos c (List.mem_cons_self _ _) hc
      have hlead : noLeadSpaceB cs = true := by
        cases cs with
        | nil => rfl
        | cons d ds =>
          have hrel := (List.chain'_cons.mp hch).1
          have hd : isSpace d = false := by
            by_contra hd'
            exact hrel ⟨hc, by simpa using hd'⟩
          simp [noLeadSpaceB, hd]
      constructor
      · have hstep : collapseWsAux false (c :: cs) = ' ' :: collapseWsAux true cs := by
          simp [collapseWsAux, hc]
        rw [hstep, iht hlead, hcsp]
      · intro hnl
        rw [noLeadSpaceB, hc] at hnl
        simp at hnl
    · have h1 : collapseWsAux false (c :: cs) = c :: collapseWsAux false cs := by
        simp [collapseWsAux, hc]
      have h2 : collapseWsAux true (c :: cs) = c :: collapseWsAux false cs := by
        simp [collapseWsAux, hc]
      rw [h1, h2, ihf]
      exact ⟨rfl, fun _ => rfl⟩

theorem map_toLower_map_toLower (x : List Char) :
    (x.map Char.toLower).map Char.toLower = x.map Char.toLower := by
  rw [List.map_map]
  exact List.map_congr_left fun c _ => toLower_idem c

theorem map_toLower_collapseWsAux (l : List Char) :
    ∀ b : Bool, (collapseWsAux b l).map Char.toLower = collapseWsAux b (l.map Char.toLower) := by
  induction l with
  | nil => intro b; rfl
  | cons c cs ih =>
    intro b
    have hc' : isSpace c.toLower = isSpace c := isSpace_toLower c
    by_cases hc : isSpace c = true <;>
      cases b <;>
        simp [collapseWsAux, hc, hc', ih, toLower_space]

theorem map_toLower_collapseWs (l : List Char) :
    (collapseWs l).map Char.toLower = collapseWs (l.map Char.toLower) :=
  map_toLower_collapseWsAux l false

theorem comp_isSpace_toLower : (fun c => isSpace (Char.toLower c)) = isSpace :=
  funext isSpace_toLower

theorem map_toLower_dropWhile (l : List Char) :
    (l.dropWhile isSpace).map Char.toLower = (l.map Char.toLower).dropWhile isSpace := by
  rw [List.dropWhile_map]
  congr 1
  exact congrArg l.dropWhile (funext fun c => (isSpace_toLower c).symm)

theorem map_toLower_stripWs (l : List Char) :
    (stripWs l).map Char.toLower = stripWs (l.map Char.toLower) := by
  unfold stripWs List.rdropWhile
  rw [List.map_reverse, map_toLower_dropWhile, List.map_reverse, map_toLower_dropWhile]

theorem normalize_idem (x : List Char) : normalize (normalize x) = normalize x := by
  have hy1 : wsChain (collapseWs (x.map Char.toLower)) := collapseWs_wsChain _
  have hy2 : wsOnlySpace (collapseWs (x.map Char.toLower)) := collapseWs_wsOnlySpace _
  have h1 : wsChain (stripWs (collapseWs (x.map Char.toLower))) :=
    wsChain_rdropWhile (wsChain_dropWhile hy1)
  have h2 : wsOnlySpace (stripWs (collapseWs (x.map Char.toLower))) :=
    wsOnlySpace_rdropWhile (wsOnlySpace_dropWhile hy2)
  have h3 : noLeadSpaceB (stripWs (collapseWs (x.map Char.toLower))) = true :=
    noLeadSpaceB_rdropWhile (noLeadSpaceB_dropWhile _)
  have h4 : noTrailSpaceB (stripWs (collapseWs (x.map Char.toLower))) = true :=
    noTrailSpaceB_rdropWhile _
  have h5 : (stripWs (collapseWs (x.map Char.toLower))).map Char.toLower =
      stripWs (collapseWs (x.map Char.toLower)) := by
    rw [map_toLower_stripWs, map_toLower_collapseWs, map_toLower_map_toLower]
  show stripWs (collapseWs ((stripWs (collapseWs (x.map Char.toLower))).map Char.toLower)) =
    stripWs (collapseWs (x.map Char.toLower))
  rw [h5]
  obtain ⟨hfix, -⟩ :=
    collapseWsAux_eq_self (stripWs (collapseWs (x.map Char.toLower))) h1 h2
  rw [show collapseWs (stripWs (collapseWs (x.map Char.toLower))) =
    stripWs (collapseWs (x.map Char.toLower)) from hfix]
  exact stripWs_eq_self h3 h4

theorem tokenize_normalize (text : List Char) : tokenize (normalize text) = tokenize text := by
  unfold tokenize
  rw [normalize_idem]

/-! Tokens produced by whitespace splitting contain no whitespace character. -/

theorem splitWsAux_no_space (l : List Char) :
    ∀ acc : List Char, (∀ c ∈ acc, isSpace c = false) →
      ∀ tok ∈ splitWsAux acc l, tok ≠ [] ∧ ∀ c ∈ tok, isSpace c = false := by
  induction l with
  | nil =>
    intro acc hacc tok htok
    by_cases ha : acc = []
    · simp [splitWsAux, ha] at htok
    · simp only [splitWsAux, ha, if_false] at htok
      rcases List.mem_singleton.mp htok with rfl
      refine ⟨by simpa using ha, fun c hc => hacc c (List.mem_reverse.mp hc)⟩
  | cons c cs ih =>
    intro acc hacc tok htok
    by_cases hc : isSpace c = true
    · by_cases ha : acc = []
      · rw [show splitWsAux acc (c :: cs) = splitWsAux [] cs by
          simp [splitWsAux, hc, ha]] at htok
        exact ih [] (by simp) tok htok
      · rw [show splitWsAux acc (c :: cs) = acc.reverse :: splitWsAux [] cs by
          simp [splitWsAux, hc, ha]] at htok
        rcases List.mem_cons.mp htok with rfl | h
        · refine ⟨by simpa using ha, fun d hd => hacc d (List.mem_reverse.mp hd)⟩
        · exact ih [] (by simp) tok h
    · rw [show splitWsAux acc (c :: cs) = splitWsAux (c :: acc) cs by
        simp [splitWsAux, hc]] at htok
      refine ih (c :: acc) ?_ tok htok
      intro d hd
      rcases List.mem_cons.mp hd with rfl | h
      · simpa using hc
      · exact hacc d h

theorem tokenize_no_space {text tok : List Char} (h : tok ∈ tokenize text) :
    ∀ c ∈ tok, isSpace c = false := by
  unfold tokenize splitWs at h
  have h' := List.mem_of_mem_filter h
  exact (splitWsAux_no_space (normalize text) [] (by simp) tok h').2

theorem mem_of_mem_rdropWhile {p : Char → Bool} {l : List Char} {c : Char}
    (h : c ∈ l.rdropWhile p) : c ∈ l := by
  rw [List.rdropWhile, List.mem_reverse] at h
  exact List.mem_reverse.mp (List.dropWhile_subset _ h)

theorem stripTok_subset {tok : List Char} {c : Char} (h : c ∈ stripTok tok) : c ∈ tok := by
  unfold stripTok at h
  exact List.dropWhile_subset _ (mem_of_mem_rdropWhile h)

/-! A pass over tokens that are neither modifiers nor lexicon words leaves the
scan state untouched. -/

theorem scanTokens_neutral {toks : List (List Char)}
    (h : ∀ tok ∈ toks, stripTok tok ∉ NEGATORS ∧ stripTok tok ∉ BOOSTERS ∧
      stripTok tok ∉ DAMPENERS ∧ stripTok tok ∉ POS_WORDS ∧ stripTok tok ∉ NEG_WORDS) :
    scanTokens toks = ⟨0, false, false, false⟩ := by
  unfold scanTokens
  induction toks with
  | nil => rfl
  | cons t ts ih =>
    obtain ⟨h0, h1, h2, h3, h4⟩ := h t (List.mem_cons_self _ _)
    rw [List.foldl_cons, stepTok_scoreable h0 h1 h2]
    have hb : baseScore (stripTok t) = 0 := by
      unfold baseScore
      rw [if_neg h3, if_neg h4]
    rw [hb]
    simpa using ih fun tok htok => h tok (List.mem_cons_of_mem _ htok)

/-! Bounds for the clamped score. -/

theorem clamp_unit_mem (x : ℝ) : -1 ≤ clamp_unit x ∧ clamp_unit x ≤ 1 := by
  unfold clamp_unit
  exact ⟨le_max_left _ _, max_le (by norm_num) (min_le_left _ _)⟩

theorem le_clamp_unit {c x : ℝ} (hc : c ≤ 1) (h : c ≤ x) : c ≤ clamp_unit x := by
  unfold clamp_unit
  exact le_trans (le_min hc h) (le_max_right _ _)

theorem clamp_unit_le {c x : ℝ} (hc : -1 ≤ c) (h : x ≤ c) : clamp_unit x ≤ c := by
  unfold clamp_unit
  exact max_le hc (le_trans (min_le_right _ _) h)

theorem analyze_fallback_score_mem_unit (text : List Char) :
    -1 ≤ analyze_fallback_score text ∧ analyze_fallback_score text ≤ 1 := by
  rw [analyze_fallback_score_cases]
  exact clamp_unit_mem _

/-- With at most nine tokens the length divisor is at most 3, so a pre-norm
total of magnitude at least 0.3 keeps the final score past the ±0.1 label
thresholds. -/
theorem fallback_score_threshold {text : List Char} (hlen : (tokenize text).length ≤ 9) :
    ((3 / 10 : ℚ) ≤ preNormTotal text → (1 / 10 : ℝ) ≤ analyze_fallback_score text) ∧
      (preNormTotal text ≤ -(3 / 10) → analyze_fallback_score text ≤ -(1 / 10 : ℝ)) := by
  rw [analyze_fallback_score_cases, tokenize_normalize]
  by_cases h0 : 0 < (tokenize text).length
  · by_cases h3 : (tokenize text).length ≤ 3
    · rw [if_pos h0, if_pos h3]
      have hd1 : (1 : ℝ) ≤ max 1 (((tokenize text).length : ℝ) * 0.6) := le_max_left _ _
      have hn3 : ((tokenize text).length : ℝ) ≤ 3 := by exact_mod_cast h3
      have hd3 : max 1 (((tokenize text).length : ℝ) * 0.6) ≤ 3 :=
        max_le (by norm_num) (by nlinarith)
      have hdpos : (0 : ℝ) < max 1 (((tokenize text).length : ℝ) * 0.6) := by linarith
      constructor
      · intro hT
        have hTR : (3 / 10 : ℝ) ≤ (preNormTotal text : ℝ) := by
          have h' : ((3 / 10 : ℚ) : ℝ) ≤ ((preNormTotal text : ℚ) : ℝ) := Rat.cast_le.mpr hT
          push_cast at h'
          exact h'
        refine le_clamp_unit (by norm_num) ?_
        rw [le_div_iff hdpos]
        nlinarith
      · intro hT
        have hTR : ((preNormTotal text : ℚ) : ℝ) ≤ -(3 / 10 : ℝ) := by
          have h' : ((preNormTotal text : ℚ) : ℝ) ≤ ((-(3 / 10) : ℚ) : ℝ) := Rat.cast_le.mpr hT
          push_cast at h'
          exact h'
        refine clamp_unit_le (by norm_num) ?_
        rw [div_le_iff hdpos]
        nlinarith
    · rw [if_pos h0, if_neg h3]
      have hn9 : ((tokenize text).length : ℝ) ≤ 9 := by exact_mod_cast hlen
      have hnpos : (0 : ℝ) < ((tokenize text).length : ℝ) := by exact_mod_cast h0
      have hspos : (0 : ℝ) < Real.sqrt ((tokenize text).length : ℝ) := Real.sqrt_pos.mpr hnpos
      have hs3 : Real.sqrt ((tokenize text).length : ℝ) ≤ 3 := by
        have h9 : Real.sqrt ((tokenize text).length : ℝ) ≤ Real.sqrt 9 := Real.sqrt_le_sqrt hn9
        have : Real.sqrt (9 : ℝ) = 3 := by
          rw [show (9 : ℝ) = 3 ^ 2 by norm_num, Real.sqrt_sq (by norm_num : (0 : ℝ) ≤ 3)]
        linarith
      constructor
      · intro hT
        have hTR : (3 / 10 : ℝ) ≤ (preNormTotal text : ℝ) := by
          have h' : ((3 / 10 : ℚ) : ℝ) ≤ ((preNormTotal text : ℚ) : ℝ) := Rat.cast_le.mpr hT
          push_cast at h'
          exact h'
        refine le_clamp_unit (by norm_num) ?_
        rw [le_div_iff hspos]
        nlinarith
      · intro hT
        have hTR : ((preNormTotal text : ℚ) : ℝ) ≤ -(3 / 10 : ℝ) := by
          have h' : ((preNormTotal text : ℚ) : ℝ) ≤ ((-(3 / 10) : ℚ) : ℝ) := Rat.cast_le.mpr hT
          push_cast at h'
          exact h'
        refine clamp_unit_le (by norm_num) ?_
        rw [div_le_iff hspos]
        nlinarith
  · rw [if_neg h0]
    constructor
    · intro hT
      have hTR : (3 / 10 : ℝ) ≤ (preNormTotal text : ℝ) := by
          have h' : ((3 / 10 : ℚ) : ℝ) ≤ ((preNormTotal text : ℚ) : ℝ) := Rat.cast_le.mpr hT
          push_cast at h'
          exact h'
      exact le_clamp_unit (by norm_num) (by linarith)
    · intro hT
      have hTR : ((preNormTotal text : ℚ) : ℝ) ≤ -(3 / 10 : ℝ) := by
          have h' : ((preNormTotal text : ℚ) : ℝ) ≤ ((-(3 / 10) : ℚ) : ℝ) := Rat.cast_le.mpr hT
          push_cast at h'
          exact h'
      exact clamp_unit_le (by norm_num) (by linarith)

theorem analyze_fallback_of_ge {text : List Char}
    (h : (0.1 : ℝ) ≤ analyze_fallback_score text) : analyze_fallback text = "positive" := by
  unfold analyze_fallback label_from_score
  rw [if_pos h]

theorem analyze_fallback_of_le {text : List Char}
    (h : analyze_fallback_score text ≤ -(0.1 : ℝ)) : analyze_fallback text = "negative" := by
  unfold analyze_fallback label_from_score
  rw [if_neg (by norm_num; linarith), if_pos (by linarith)]

/-! The claims. -/

/-- C1: for every input string, `analyze_fallback_score` returns a value in
the closed interval `[-1, 1]`; the final result is clamped to that range
before being returned. -/
theorem C1_score_in_unit_interval (text : List Char) :
    -1 ≤ analyze_fallback_score text ∧ analyze_fallback_score text ≤ 1 :=
  analyze_fallback_score_mem_unit text

/-- C2: during the scoring pass a token whose stripped form is a negator,
booster, or dampener sets its flag and contributes nothing; on the next
scoreable token the active flags are applied in the order negation (× −1),
booster (× 1.8), dampener (× 0.5), and all flags are cleared by that token
even when its base contribution is zero. -/
theorem C2_modifier_flag_discipline (s : ScanState) (tok : List Char) :
    (stripTok tok ∈ NEGATORS → stepTok s tok = { s with negation_active := true }) ∧
      (stripTok tok ∈ BOOSTERS → stepTok s tok = { s with booster_active := true }) ∧
      (stripTok tok ∈ DAMPENERS → stepTok s tok = { s with dampener_active := true }) ∧
      (stripTok tok ∉ NEGATORS → stripTok tok ∉ BOOSTERS → stripTok tok ∉ DAMPENERS →
        stepTok s tok =
          { score := s.score +
              baseScore (stripTok tok) * (if s.negation_active then -1 else 1) *
                (if s.booster_active then 1.8 else 1) *
                (if s.dampener_active then 0.5 else 1),
            negation_active := false, booster_active := false, dampener_active := false }) := by
  have hbn : ∀ w ∈ BOOSTERS, w ∉ NEGATORS := by decide
  have hdn : ∀ w ∈ DAMPENERS, w ∉ NEGATORS := by decide
  have hdb : ∀ w ∈ DAMPENERS, w ∉ BOOSTERS := by decide
  refine ⟨fun h => stepTok_negator h, fun h => ?_, fun h => ?_,
    fun h0 h1 h2 => stepTok_scoreable h0 h1 h2⟩
  · exact stepTok_booster (hbn _ h) h
  · exact stepTok_dampener (hdn _ h) (hdb _ h) h

/-- Witness for C2: an unknown word consumes and clears all three active
flags while contributing zero, and a negator only sets its flag. -/
theorem C2_witness :
    stepTok ⟨2, true, true, true⟩ "mediocre".toList = ⟨2, false, false, false⟩ ∧
      stepTok ⟨0, false, false, false⟩ "not".toList = ⟨0, true, false, false⟩ := by
  constructor
  · have h := (C2_modifier_flag_discipline ⟨2, true, true, true⟩ "mediocre".toList).2.2.2
      (by decide) (by decide) (by decide)
    rw [h]
    have hb : baseScore (stripTok "mediocre".toList) = 0 := by
      unfold baseScore
      rw [if_neg (by decide), if_neg (by decide)]
    rw [hb]
    simp
  · exact (C2_modifier_flag_discipline ⟨0, false, false, false⟩ "not".toList).1 (by decide)

/-- C3: length normalization uses the raw `tokenize` length `n` (modifier
tokens included): `n = 0` returns the accumulated total undivided, `0 < n ≤ 3`
divides by `max(1, n*0.6)`, `n > 3` divides by `sqrt n`, and the clamp to
`[-1, 1]` is applied after the division. -/
theorem C3_length_normalization (text : List Char) :
    ((tokenize text).length = 0 →
      analyze_fallback_score text = clamp_unit (preNormTotal text : ℝ)) ∧
      (0 < (tokenize text).length → (tokenize text).length ≤ 3 →
        analyze_fallback_score text =
          clamp_unit ((preNormTotal text : ℝ) /
            max 1 (((tokenize text).length : ℝ) * 0.6))) ∧
      (3 < (tokenize text).length →
        analyze_fallback_score text =
          clamp_unit ((preNormTotal text : ℝ) /
            Real.sqrt ((tokenize text).length : ℝ))) := by
  rw [analyze_fallback_score_cases, tokenize_normalize]
  refine ⟨fun h0 => ?_, fun h1 h2 => ?_, fun h3 => ?_⟩
  · rw [if_neg (by omega)]
  · rw [if_pos h1, if_pos h2]
  · rw [if_pos (by omega), if_neg (by omega)]

/-- Witness for C3: one concrete input per branch of the length
normalization. -/
theorem C3_witness :
    analyze_fallback_score "".toList = clamp_unit (preNormTotal "".toList : ℝ) ∧
      analyze_fallback_score "ok go".toList =
        clamp_unit ((preNormTotal "ok go".toList : ℝ) /
          max 1 (((tokenize "ok go".toList).length : ℝ) * 0.6)) ∧
      analyze_fallback_score "w x y z".toList =
        clamp_unit ((preNormTotal "w x y z".toList : ℝ) /
          Real.sqrt ((tokenize "w x y z".toList).length : ℝ)) :=
  ⟨(C3_length_normalization "".toList).1 (by decide),
    (C3_length_normalization "ok go".toList).2.1 (by decide) (by decide),
    (C3_length_normalization "w x y z".toList).2.2 (by decide)⟩

/-- C4: after the token pass the engine adds `0.1` per `"!"` character of the
normalized text (uncapped) and `±0.3` once per distinct emoji glyph found in
the raw input, and these terms enter the total before the length divisor. -/
theorem C4_emphasis_terms_before_divisor (text : List Char) :
    analyze_fallback_score text =
      clamp_unit
        (if 0 < (tokenize text).length then
          if (tokenize text).length ≤ 3 then
            (((scanTokens (tokenize text)).score + 0.1 * ((normalize text).count '!' : ℚ) +
                0.3 * (posEmojiCount text : ℚ) - 0.3 * (negEmojiCount text : ℚ) : ℚ) : ℝ) /
              max 1 (((tokenize text).length : ℝ) * 0.6)
          else
            (((scanTokens (tokenize text)).score + 0.1 * ((normalize text).count '!' : ℚ) +
                0.3 * (posEmojiCount text : ℚ) - 0.3 * (negEmojiCount text : ℚ) : ℚ) : ℝ) /
              Real.sqrt ((tokenize text).length : ℝ)
        else
          (((scanTokens (tokenize text)).score + 0.1 * ((normalize text).count '!' : ℚ) +
              0.3 * (posEmojiCount text : ℚ) - 0.3 * (negEmojiCount text : ℚ) : ℚ) : ℝ)) := by
  have hT : preNormTotal text =
      (scanTokens (tokenize text)).score + 0.1 * ((normalize text).count '!' : ℚ) +
        0.3 * (posEmojiCount text : ℚ) - 0.3 * (negEmojiCount text : ℚ) := by
    rw [preNormTotal_eq, tokenize_normalize]
  rw [analyze_fallback_score_cases, tokenize_normalize, hT]

/-- Counterexample to C5: the word "never" belongs to both the negative-word
lexicon and the negator set, so the five sets are not pairwise disjoint. -/
theorem C5_counterexample :
    "never".toList ∈ NEG_WORDS ∧ "never".toList ∈ NEGATORS := by decide

/-- C5 amended: the five lexicon sets are pairwise disjoint except that
`NEG_WORDS` and `NEGATORS` share exactly the word "never". -/
theorem C5_amended_disjointness :
    POS_WORDS.filter (NEG_WORDS.contains ·) = [] ∧
      POS_WORDS.filter (NEGATORS.contains ·) = [] ∧
      POS_WORDS.filter (BOOSTERS.contains ·) = [] ∧
      POS_WORDS.filter (DAMPENERS.contains ·) = [] ∧
      NEG_WORDS.filter (NEGATORS.contains ·) = ["never".toList] ∧
      NEG_WORDS.filter (BOOSTERS.contains ·) = [] ∧
      NEG_WORDS.filter (DAMPENERS.contains ·) = [] ∧
      NEGATORS.filter (BOOSTERS.contains ·) = [] ∧
      NEGATORS.filter (DAMPENERS.contains ·) = [] ∧
      BOOSTERS.filter (DAMPENERS.contains ·) = [] := by decide

/-- C7: `label_from_score` returns positive exactly when the score is at or
above the positive threshold, otherwise negative exactly when at or below the
negative threshold, otherwise neutral; both boundaries are inclusive at the
defaults +0.10 / −0.10. -/
theorem C7_label_thresholds :
    (∀ score pos neg : ℝ,
      (label_from_score score pos neg = "positive" ↔ pos ≤ score) ∧
        (label_from_score score pos neg = "negative" ↔ score < pos ∧ score ≤ neg) ∧
        (label_from_score score pos neg = "neutral" ↔ score < pos ∧ neg < score)) ∧
      label_from_score 0.10 0.10 (-0.10) = "positive" ∧
      label_from_score 0.099 0.10 (-0.10) = "neutral" ∧
      label_from_score (-0.10) 0.10 (-0.10) = "negative" ∧
      label_from_score (-0.099) 0.10 (-0.10) = "neutral" := by
  refine ⟨fun score pos neg => ?_, ?_, ?_, ?_, ?_⟩
  · unfold label_from_score
    split_ifs with h1 h2
    · exact ⟨⟨fun _ => h1, fun _ => rfl⟩,
        ⟨fun h => by simp at h, fun h => absurd h.1 (not_lt.mpr h1)⟩,
        ⟨fun h => by simp at h, fun h => absurd h.1 (not_lt.mpr h1)⟩⟩
    · exact ⟨⟨fun h => by simp at h, fun hp => absurd hp h1⟩,
        ⟨fun _ => ⟨not_le.mp h1, h2⟩, fun _ => rfl⟩,
        ⟨fun h => by simp at h, fun h => absurd h2 (not_le.mpr h.2)⟩⟩
    · exact ⟨⟨fun h => by simp at h, fun hp => absurd hp h1⟩,
        ⟨fun h => by simp at h, fun h => absurd h.2 h2⟩,
        ⟨fun _ => ⟨not_le.mp h1, not_le.mp h2⟩, fun _ => rfl⟩⟩
  · unfold label_from_score
    rw [if_pos (by norm_num)]
  · unfold label_from_score
    rw [if_neg (by norm_num), if_neg (by norm_num)]
  · unfold label_from_score
    rw [if_neg (by norm_num), if_pos (by norm_num)]
  · unfold label_from_score
    rw [if_neg (by norm_num), if_neg (by norm_num)]

/-- C8: `normalize` is total and idempotent, and case-insensitive in the sense
that "HELLO" and "hello" normalize identically. -/
theorem C8_normalize_idempotent :
    (∀ x : List Char, normalize (normalize x) = normalize x) ∧
      normalize "HELLO".toList = normalize "hello".toList :=
  ⟨normalize_idem, by decide⟩

/-- C9: when the model artifact is missing or loading raises, both strategy
entry points silently use the lexicon fallback, which returns one of the three
labels and a score in `[-1, 1]` for every input string. -/
theorem C9_model_failure_falls_back {Model : Type} (analyze_ml : Model → List Char → String)
    (analyze_ml_score : Model → List Char → ℝ) (path_exists : Bool)
    (load_result : LoadOutcome Model) (text : List Char)
    (hfail : path_exists = false ∨ load_result = LoadOutcome.raised) :
    analyze_strategy analyze_ml path_exists load_result text = analyze_fallback text ∧
      analyze_strategy_score analyze_ml_score path_exists load_result text =
        analyze_fallback_score text ∧
      (analyze_fallback text = "positive" ∨ analyze_fallback text = "negative" ∨
        analyze_fallback text = "neutral") ∧
      -1 ≤ analyze_fallback_score text ∧ analyze_fallback_score text ≤ 1 := by
  have hnone : load_model_once path_exists load_result = (none : Option Model) := by
    rcases hfail with h | h
    · simp [load_model_once, h]
    · cases path_exists <;> simp [load_model_once, h]
  refine ⟨?_, ?_, ?_, analyze_fallback_score_mem_unit text⟩
  · unfold analyze_strategy
    rw [hnone]
  · unfold analyze_strategy_score
    rw [hnone]
  · unfold analyze_fallback label_from_score
    split_ifs
    · exact Or.inl rfl
    · exact Or.inr (Or.inl rfl)
    · exact Or.inr (Or.inr rfl)

/-- Witness for C9: with no artifact present and a raising loader, both entry
points equal the fallback on the empty string, whose results are valid. -/
theorem C9_witness :
    @analyze_strategy Unit (fun _ _ => "positive") false LoadOutcome.raised [] =
        analyze_fallback [] ∧
      @analyze_strategy_score Unit (fun _ _ => 0) false LoadOutcome.raised [] =
        analyze_fallback_score [] ∧
      (analyze_fallback [] = "positive" ∨ analyze_fallback [] = "negative" ∨
        analyze_fallback [] = "neutral") ∧
      -1 ≤ analyze_fallback_score [] ∧ analyze_fallback_score [] ≤ 1 :=
  C9_model_failure_falls_back (fun _ _ => "positive") (fun _ _ => 0) false
    LoadOutcome.raised [] (Or.inl rfl)

/-- C10: tokens produced by `tokenize` never contain whitespace, so the
two-word dampener entries can never match a stripped token, and the dampener
branch can only fire on the six single-word dampeners. -/
theorem C10_dampener_flag_single_word (text : List Char) (tok : List Char)
    (h : tok ∈ tokenize text) :
    (tok.all fun c => !isSpace c) = true ∧
      stripTok tok ≠ "kind of".toList ∧ stripTok tok ≠ "sort of".toList ∧
      (stripTok tok ∈ DAMPENERS →
        stripTok tok ∈ (["somewhat", "slightly", "barely", "hardly", "maybe",
          "perhaps"].map String.toList)) := by
  have hns : ∀ c ∈ tok, isSpace c = false := tokenize_no_space h
  have hstrip : ∀ c ∈ stripTok tok, isSpace c = false := fun c hc => hns c (stripTok_subset hc)
  have hk : stripTok tok ≠ "kind of".toList := by
    intro he
    have hsp : (' ' : Char) ∈ stripTok tok := by rw [he]; decide
    exact absurd (hstrip ' ' hsp) (by decide)
  have hs : stripTok tok ≠ "sort of".toList := by
    intro he
    have hsp : (' ' : Char) ∈ stripTok tok := by rw [he]; decide
    exact absurd (hstrip ' ' hsp) (by decide)
  refine ⟨?_, hk, hs, ?_⟩
  · rw [List.all_eq_true]
    intro c hc
    simp [hns c hc]
  · intro hmem
    simp only [DAMPENERS, List.map_cons, List.map_nil, List.mem_cons, List.mem_singleton] at hmem
    rcases hmem with h' | h' | h' | h' | h' | h' | h' | h' | h'
    · simp [h']
    · simp [h']
    · simp [h']
    · simp [h']
    · simp [h']
    · simp [h']
    · exact absurd h' hk
    · exact absurd h' hs
    · simp at h'

/-- Counterexample to C6: an otherwise-neutral ten-token text containing the
positive emoji is labelled neutral, not positive, because the `sqrt 10`
divisor pushes `0.3 / sqrt 10` below the `0.1` threshold. -/
theorem C6_counterexample :
    occursIn "😊".toList "a b c d e f g h i 😊".toList = true ∧
      ((tokenize "a b c d e f g h i 😊".toList).all fun tok =>
        !(NEGATORS.contains (stripTok tok)) && !(BOOSTERS.contains (stripTok tok)) &&
          !(DAMPENERS.contains (stripTok tok)) && !(POS_WORDS.contains (stripTok tok)) &&
            !(NEG_WORDS.contains (stripTok tok))) = true ∧
      analyze_fallback "a b c d e f g h i 😊".toList = "neutral" := by
  refine ⟨by decide, by decide, ?_⟩
  have hneutral : ∀ tok ∈ tokenize "a b c d e f g h i 😊".toList,
      stripTok tok ∉ NEGATORS ∧ stripTok tok ∉ BOOSTERS ∧ stripTok tok ∉ DAMPENERS ∧
        stripTok tok ∉ POS_WORDS ∧ stripTok tok ∉ NEG_WORDS := by decide
  have hscan := scanTokens_neutral hneutral
  have htot : preNormTotal "a b c d e f g h i 😊".toList = 3 / 10 := by
    rw [preNormTotal_eq, tokenize_normalize, hscan]
    have hc : (normalize "a b c d e f g h i 😊".toList).count '!' = 0 := by decide
    have hp : posEmojiCount "a b c d e f g h i 😊".toList = 1 := by decide
    have hq : negEmojiCount "a b c d e f g h i 😊".toList = 0 := by decide
    rw [hc, hp, hq]
    norm_num
  have hlen : (tokenize "a b c d e f g h i 😊".toList).length = 10 := by decide
  have hscore : analyze_fallback_score "a b c d e f g h i 😊".toList =
      clamp_unit ((3 / 10 : ℝ) / Real.sqrt 10) := by
    rw [analyze_fallback_score_cases, tokenize_normalize, hlen, htot,
      if_pos (by norm_num), if_neg (by norm_num)]
    norm_num
  have hspos : (0 : ℝ) < Real.sqrt 10 := Real.sqrt_pos.mpr (by norm_num)
  have hsqrt : (3 : ℝ) < Real.sqrt 10 :=
    (Real.lt_sqrt (by norm_num : (0 : ℝ) ≤ 3)).mpr (by norm_num)
  have hv : (0 : ℝ) < (3 / 10) / Real.sqrt 10 := by positivity
  have hvlt : (3 / 10 : ℝ) / Real.sqrt 10 < 1 / 10 := by
    rw [div_lt_iff hspos]
    nlinarith
  have hclamp : clamp_unit ((3 / 10 : ℝ) / Real.sqrt 10) = (3 / 10 : ℝ) / Real.sqrt 10 := by
    unfold clamp_unit
    rw [min_eq_right (by linarith), max_eq_right (by linarith)]
  unfold analyze_fallback label_from_score
  rw [hscore, hclamp, if_neg (not_le.mpr (by linarith)), if_neg (not_le.mpr (by linarith))]

/-- C6 amended: for otherwise-neutral text (no token is a lexicon word or a
modifier) with at most eight tokens, a positive-emoji glyph (with no
negative-emoji glyph) forces the label positive; symmetrically a
negative-emoji glyph (with no positive-emoji glyph and no exclamation marks)
forces the label negative.  Eight is the safe bound: from ten tokens on the
`sqrt n` divisor pushes the emoji term below the thresholds, and at exactly
nine tokens the program's binary64 quotient `0.3 / 3.0` falls just below
`0.1` even though the exact quotient would meet the inclusive threshold, so
nine is excluded as well.  At eight tokens the score is at least
`0.3 / sqrt 8 > 0.106`, a margin far above double rounding error. -/
theorem C6_amended_emoji_forces_label (text : List Char)
    (hneutral : ∀ tok ∈ tokenize text,
      stripTok tok ∉ NEGATORS ∧ stripTok tok ∉ BOOSTERS ∧ stripTok tok ∉ DAMPENERS ∧
        stripTok tok ∉ POS_WORDS ∧ stripTok tok ∉ NEG_WORDS)
    (hlen : (tokenize text).length ≤ 8) :
    (1 ≤ posEmojiCount text → negEmojiCount text = 0 →
      analyze_fallback text = "positive") ∧
      (1 ≤ negEmojiCount text → posEmojiCount text = 0 → (normalize text).count '!' = 0 →
        analyze_fallback text = "negative") := by
  have hscan : scanTokens (tokenize text) = ⟨0, false, false, false⟩ :=
    scanTokens_neutral hneutral
  have htot : preNormTotal text =
      0.1 * ((normalize text).count '!' : ℚ) + 0.3 * (posEmojiCount text : ℚ) -
        0.3 * (negEmojiCount text : ℚ) := by
    rw [preNormTotal_eq, tokenize_normalize, hscan]
    show (0 : ℚ) + _ + _ - _ = _
    ring
  constructor
  · intro hp hq
    have hpQ : (1 : ℚ) ≤ (posEmojiCount text : ℚ) := by exact_mod_cast hp
    have heQ : (0 : ℚ) ≤ (((normalize text).count '!' : ℕ) : ℚ) := Nat.cast_nonneg _
    have hT : (3 / 10 : ℚ) ≤ preNormTotal text := by
      rw [htot, hq]
      push_cast
      nlinarith
    have hs := (fallback_score_threshold (by omega)).1 hT
    exact analyze_fallback_of_ge (by linarith)
  · intro hq hp he
    have hqQ : (1 : ℚ) ≤ (negEmojiCount text : ℚ) := by exact_mod_cast hq
    have hT : preNormTotal text ≤ -(3 / 10) := by
      rw [htot, hp, he]
      push_cast
      nlinarith
    have hs := (fallback_score_threshold (by omega)).2 hT
    exact analyze_fallback_of_le (by linarith)

/-- Witness for C6: the spec's own example is labelled positive, and a
three-token neutral text with a negative emoji is labelled negative. -/
theorem C6_amended_witness :
    analyze_fallback "This is okay 😊".toList = "positive" ∧
      analyze_fallback "meeting moved 👎".toList = "negative" := by
  constructor
  · exact (C6_amended_emoji_forces_label "This is okay 😊".toList (by decide) (by decide)).1
      (by decide) (by decide)
  · exact (C6_amended_emoji_forces_label "meeting moved 👎".toList (by decide) (by decide)).2
      (by decide) (by decide) (by decide)

/-- Witness for C10: the token "hardly" of a concrete input is whitespace-free
and its stripped form is one of the six single-word dampeners. -/
theorem C10_witness :
    ("hardly".toList.all fun c => !isSpace c) = true ∧
      stripTok "hardly".toList ∈ (["somewhat", "slightly", "barely", "hardly", "maybe",
        "perhaps"].map String.toList) := by
  have h := C10_dampener_flag_single_word "I hardly know".toList "hardly".toList (by decide)
  exact ⟨h.1, h.2.2.2 (by decide)⟩

end SentimentAnalyser
